import Mathlib

/-!
# MetricsStream — verification of the core concurrency primitives

Shallow embedding of the MetricsStream ingestion core:

* the sliding-window rate limiter (`RateLimiter` in
  `src/include/ingestion_service.h`; its method bodies are not part of the
  provided sources, so `allowRequest` and the ring-buffer flush protocol are
  modelled from the specification),
* the per-client telemetry ring buffer (`ClientMetrics` in
  `src/include/ingestion_service.h`: a 1000-slot array with monotonically
  increasing write and read cursors, slots addressed modulo the capacity),
* the bounded worker pool (`ThreadPool` in `src/src/thread_pool.cpp`),
  together with a sequential interleaving machine for its mutex-serialized
  critical sections (enqueue, one worker-loop iteration, worker exit,
  shutdown signal).

Machine integers do not overflow in any of the operations modelled here
(cursors and sizes are `size_t` counters that only ever grow by one per
event), so they are embedded as `Nat`; `steady_clock` time points are
embedded as `Int` ticks with one second equal to `oneSecond` ticks.
-/

namespace MetricsStream

/-! ## Sliding-window rate limiter -/

/-- One second, in the integer clock ticks of the embedded monotonic clock. -/
def oneSecond : Int := 1000000000

/-- Decision-event record stored in a client's telemetry ring buffer
(`MetricEvent` in `src/include/ingestion_service.h`). -/
structure MetricEvent where
  timestamp : Int
  allowed : Bool
deriving DecidableEq, Repr

instance : Inhabited MetricEvent := ⟨⟨0, false⟩⟩

/-- Rate-limiter state: the configured limit and, per client id, the deque of
recent accepted-request timestamps (`max_requests_` and `client_requests_` in
`src/include/ingestion_service.h`; a client not yet seen maps to the empty
window, matching lazy creation). -/
structure RateLimiter where
  maxRequests : Nat
  clientRequests : String → List Int

/-- Modelled from the spec: step (b) of `RateLimiter::allow_request` (the
implementation file is not among the sources; `src/include/ingestion_service.h`
declares it) — "discard all timestamps older than now − 1 second" from the
client's window. -/
def pruneWindow (now : Int) (w : List Int) : List Int :=
  w.filter (fun ts => decide (now - oneSecond ≤ ts))

/-- Modelled from the spec: `RateLimiter::allow_request(client_id)` (body not
among the sources) — look up or lazily create the client's window, discard
timestamps older than one second before `now`, and if the remaining count is
below `max_requests_per_second` append `now` and allow, otherwise deny. -/
def RateLimiter.allowRequest (rl : RateLimiter) (client : String) (now : Int) :
    Bool × RateLimiter :=
  let w := pruneWindow now (rl.clientRequests client)
  if w.length < rl.maxRequests then
    (true, { rl with clientRequests := Function.update rl.clientRequests client (w ++ [now]) })
  else
    (false, { rl with clientRequests := Function.update rl.clientRequests client w })

/-- Run a sequence of `allow_request` calls, returning the final state and the
log of decisions `(client, now, allowed)` in call order. -/
def RateLimiter.runCalls (rl : RateLimiter) :
    List (String × Int) → RateLimiter × List (String × Int × Bool)
  | [] => (rl, [])
  | (c, now) :: rest =>
      let step := rl.allowRequest c now
      let tail := step.2.runCalls rest
      (tail.1, (c, now, step.1) :: tail.2)

/-- The fresh rate limiter: every client window empty. -/
def RateLimiter.init (maxR : Nat) : RateLimiter :=
  ⟨maxR, fun _ => []⟩

/-- Timestamps of the calls for client `c` that returned `true`, in call
order. -/
def allowedTimes (log : List (String × Int × Bool)) (c : String) : List Int :=
  (log.filter (fun e => decide (e.1 = c) && e.2.2)).map (fun e => e.2.1)

/-- Whether `ts` lies in the closed 1-second interval ending at `t`. -/
def inWindow (t ts : Int) : Bool :=
  decide (t - oneSecond ≤ ts) && decide (ts ≤ t)

/-- Number of timestamps of `l` in the 1-second interval ending at `t`. -/
def windowCount (l : List Int) (t : Int) : Nat :=
  (l.filter (inWindow t)).length

/-- A concrete client id used for evaluating the model on sample inputs. -/
def clientA : String := "a"

/-! ## Telemetry ring buffer -/

/-- Ring-buffer capacity (`ClientMetrics::BUFFER_SIZE` in
`src/include/ingestion_service.h`). -/
def BUFFER_SIZE : Nat := 1000

def buffer_size_pos : 0 < BUFFER_SIZE := by norm_num [BUFFER_SIZE]

/-- Per-client telemetry state (`ClientMetrics` in
`src/include/ingestion_service.h`): a fixed 1000-slot array of decision
events with monotonically increasing write and read cursors, slots addressed
by cursor modulo capacity. -/
structure ClientMetrics where
  ring_buffer : Fin BUFFER_SIZE → MetricEvent
  write_index : Nat
  read_index : Nat

/-- Modelled from the spec: the record path of the telemetry buffer (the
writer side of `RateLimiter::allow_request`, whose body is not among the
sources) — store the event at the write cursor's slot, advance the write
cursor, and when the write would exceed the capacity silently overwrite the
oldest unread event by advancing the read cursor too. -/
def ClientMetrics.record (s : ClientMetrics) (e : MetricEvent) : ClientMetrics :=
  { ring_buffer :=
      Function.update s.ring_buffer ⟨s.write_index % BUFFER_SIZE, Nat.mod_lt _ buffer_size_pos⟩ e,
    write_index := s.write_index + 1,
    read_index :=
      if BUFFER_SIZE ≤ s.write_index - s.read_index then s.read_index + 1 else s.read_index }

/-- Modelled from the spec: the drain performed by `RateLimiter::flush_metrics`
for one client (body not among the sources) — read the events from the read
cursor up to the write cursor in order, then advance the read cursor to the
write cursor. -/
def ClientMetrics.drain (s : ClientMetrics) : List MetricEvent × ClientMetrics :=
  ((List.range (s.write_index - s.read_index)).map
      (fun i => s.ring_buffer ⟨(s.read_index + i) % BUFFER_SIZE, Nat.mod_lt _ buffer_size_pos⟩),
    { s with read_index := s.write_index })

/-- Record a batch of events in order. -/
def ClientMetrics.recordAll (s : ClientMetrics) (es : List MetricEvent) : ClientMetrics :=
  es.foldl ClientMetrics.record s

/-! ## Bounded worker pool (`src/src/thread_pool.cpp`) -/

/-- A submitted task, abstracting `std::function<void()>`: an identifier for
bookkeeping, whether the function object is non-empty (a default-constructed
`std::function` has `callable = false`, making the worker's `if (task)` guard
fail), and whether invoking it raises an exception. -/
structure Task where
  id : Nat
  callable : Bool
  throws : Bool
deriving DecidableEq, Repr

/-- The pool state protected by `queue_mutex_` in `src/src/thread_pool.cpp`,
plus the construction-time constants: the FIFO task queue (head = front), the
`stop_` flag, the fixed worker count and the queue capacity. -/
structure ThreadPool where
  numWorkers : Nat
  maxQueueSize : Nat
  tasks : List Task
  stop : Bool
deriving DecidableEq, Repr

/-- `ThreadPool::enqueue` (`src/src/thread_pool.cpp:39-59`): reject when the
queue is full, reject when stopping, otherwise push to the back of the queue
and report acceptance. -/
def ThreadPool.enqueue (p : ThreadPool) (t : Task) : Bool × ThreadPool :=
  if p.maxQueueSize ≤ p.tasks.length then
    (false, p)
  else if p.stop then
    (false, p)
  else
    (true, { p with tasks := p.tasks ++ [t] })

/-- `ThreadPool::queue_size` (`src/src/thread_pool.cpp:61-64`). -/
def ThreadPool.queueSize (p : ThreadPool) : Nat := p.tasks.length

/-- Observable history of an execution of the pool: the pool state plus, in
order, the tasks accepted by `enqueue`, the tasks popped by workers, the ids
of tasks actually invoked, the ids of invocations whose exception was caught
and logged at the worker boundary, and the number of workers that have
exited. -/
structure PoolSys where
  pool : ThreadPool
  accepted : List Task
  dequeued : List Task
  invoked : List Nat
  logged : List Nat
  exited : Nat
deriving DecidableEq, Repr

/-- One atomic event of the interleaved execution: each constructor is one
critical section of `src/src/thread_pool.cpp` (the `queue_mutex_`-protected
blocks), so a sequential trace of these events is a faithful model of any
threaded execution. -/
inductive PoolEvt where
  | enq (t : Task)
  | work
  | exitWorker
  | shutdown
deriving DecidableEq, Repr

/-- Step semantics for one event.

* `enq t`: `ThreadPool::enqueue` — the task is recorded as accepted exactly
  when `enqueue` returns `true`.
* `work`: one iteration of `ThreadPool::worker_loop` by a live worker when the
  queue is nonempty: pop the front task; outside the lock, `if (task)` skips
  empty functions, and a raised exception is caught and logged
  (`src/src/thread_pool.cpp:84-101`), the worker surviving either way. With
  an empty queue the worker stays blocked in `condition_.wait`, a no-op.
* `exitWorker`: a live worker observes `stop_ && tasks_.empty()` and returns
  (`src/src/thread_pool.cpp:79-81`).
* `shutdown`: the destructor sets `stop_` (`src/src/thread_pool.cpp:19-24`). -/
def poolStep (s : PoolSys) : PoolEvt → PoolSys
  | .enq t =>
      let r := s.pool.enqueue t
      { s with pool := r.2, accepted := if r.1 then s.accepted ++ [t] else s.accepted }
  | .work =>
      if s.exited < s.pool.numWorkers then
        match s.pool.tasks with
        | [] => s
        | t :: rest =>
            { s with
              pool := { s.pool with tasks := rest },
              dequeued := s.dequeued ++ [t],
              invoked := if t.callable then s.invoked ++ [t.id] else s.invoked,
              logged := if t.callable && t.throws then s.logged ++ [t.id] else s.logged }
      else s
  | .exitWorker =>
      if s.exited < s.pool.numWorkers ∧ s.pool.stop = true ∧ s.pool.tasks = [] then
        { s with exited := s.exited + 1 }
      else s
  | .shutdown => { s with pool := { s.pool with stop := true } }

/-- Run a trace of events. -/
def poolRun (s : PoolSys) (es : List PoolEvt) : PoolSys :=
  es.foldl poolStep s

/-- The freshly constructed pool (`ThreadPool::ThreadPool`): empty queue, not
stopping, all workers live. -/
def poolInit (numWorkers maxQueueSize : Nat) : PoolSys :=
  ⟨⟨numWorkers, maxQueueSize, [], false⟩, [], [], [], [], 0⟩

/-- The destructor has returned: `stop_` was signalled and every worker thread
has been joined. -/
def ShutdownComplete (s : PoolSys) : Prop :=
  s.pool.stop = true ∧ s.exited = s.pool.numWorkers

instance (s : PoolSys) : Decidable (ShutdownComplete s) := by
  unfold ShutdownComplete; infer_instance

/-- The inductive invariant of the pool machine: the queue respects its
capacity; the accepted tasks are exactly the dequeued ones followed by the
still-queued ones, in order; the invoked ids are exactly the ids of the
dequeued non-empty tasks, in order; the logged ids are exactly the ids of the
dequeued non-empty throwing tasks, in order; at most `numWorkers` workers have
exited, only after the stop signal; and once every worker of a nonempty pool
has exited under stop, the queue is empty. -/
def PoolInv (s : PoolSys) : Prop :=
  s.pool.tasks.length ≤ s.pool.maxQueueSize ∧
  s.accepted = s.dequeued ++ s.pool.tasks ∧
  s.invoked = (s.dequeued.filter (fun t => t.callable)).map Task.id ∧
  s.logged = (s.dequeued.filter (fun t => t.callable && t.throws)).map Task.id ∧
  s.exited ≤ s.pool.numWorkers ∧
  (0 < s.exited → s.pool.stop = true) ∧
  (s.pool.stop = true → s.exited = s.pool.numWorkers → 0 < s.pool.numWorkers →
    s.pool.tasks = [])

/-- Invariant tying the rate limiter's state to the history of its decisions:
`A c` is the list of timestamps at which client `c` was allowed so far, `T` a
time at or after every call so far. All allowed timestamps are at most `T`;
each client's stored window is the allowed history filtered at some threshold
at least one second old; and the allowed history of every client already
satisfies the sliding-window bound on every interval. -/
def RLInv (rl : RateLimiter) (A : String → List Int) (T : Int) : Prop :=
  (∀ c ts, ts ∈ A c → ts ≤ T) ∧
  (∀ c, ∃ θ, θ + oneSecond ≤ T ∧
    rl.clientRequests c = (A c).filter (fun ts => decide (θ ≤ ts))) ∧
  (∀ c t, windowCount (A c) t ≤ rl.maxRequests)

/-! ## Lemmas: worker pool -/

theorem enqueue_of_full {p : ThreadPool} {t : Task}
    (h : p.maxQueueSize ≤ p.tasks.length) : p.enqueue t = (false, p) := by
  simp [ThreadPool.enqueue, h]

theorem enqueue_of_stopped {p : ThreadPool} {t : Task} (h : p.stop = true) :
    p.enqueue t = (false, p) := by
  unfold ThreadPool.enqueue
  split
  · rfl
  · simp [h]

theorem enqueue_of_ok {p : ThreadPool} {t : Task} (h1 : p.tasks.length < p.maxQueueSize)
    (h2 : p.stop = false) :
    p.enqueue t = (true, { p with tasks := p.tasks ++ [t] }) := by
  have h1' : ¬ p.maxQueueSize ≤ p.tasks.length := Nat.not_le.mpr h1
  simp [ThreadPool.enqueue, h1', h2]

theorem enqueue_snd_cases {p : ThreadPool} {t : Task} :
    (p.enqueue t).2 = p ∨ (p.enqueue t).2 = { p with tasks := p.tasks ++ [t] } := by
  unfold ThreadPool.enqueue
  split
  · exact Or.inl rfl
  · split
    · exact Or.inl rfl
    · exact Or.inr rfl

theorem poolStep_constants (s : PoolSys) (e : PoolEvt) :
    (poolStep s e).pool.numWorkers = s.pool.numWorkers ∧
    (poolStep s e).pool.maxQueueSize = s.pool.maxQueueSize := by
  cases e with
  | enq t =>
      rcases enqueue_snd_cases (p := s.pool) (t := t) with h | h <;>
        simp [poolStep, h]
  | work =>
      simp only [poolStep]
      split
      · cases htasks : s.pool.tasks <;> simp
      · simp
  | exitWorker =>
      simp only [poolStep]
      split <;> simp
  | shutdown => simp [poolStep]

theorem poolStep_stop_mono (s : PoolSys) (e : PoolEvt) (h : s.pool.stop = true) :
    (poolStep s e).pool.stop = true := by
  cases e with
  | enq t =>
      rcases enqueue_snd_cases (p := s.pool) (t := t) with h' | h' <;>
        simp [poolStep, h', h]
  | work =>
      simp only [poolStep]
      split
      · cases htasks : s.pool.tasks <;> simp [h]
      · simpa using h
  | exitWorker =>
      simp only [poolStep]
      split <;> simpa using h
  | shutdown => simp [poolStep]

theorem poolStep_inv {s : PoolSys} (e : PoolEvt) (hinv : PoolInv s) :
    PoolInv (poolStep s e) := by
  obtain ⟨h1, h2, h3, h4, h5, h6, h7⟩ := hinv
  cases e with
  | enq t =>
      by_cases hfull : s.pool.maxQueueSize ≤ s.pool.tasks.length
      · simp only [poolStep, enqueue_of_full hfull]
        exact ⟨h1, by simpa using h2, h3, h4, h5, h6, h7⟩
      · cases hstop : s.pool.stop with
        | true =>
            simp only [poolStep, enqueue_of_stopped hstop]
            exact ⟨h1, by simpa using h2, h3, h4, h5, h6, h7⟩
        | false =>
            simp only [poolStep, enqueue_of_ok (Nat.not_le.mp hfull) hstop]
            refine ⟨?_, ?_, h3, h4, h5, h6, ?_⟩
            · simpa using Nat.not_le.mp hfull
            · simp [h2]
            · intro hst
              simp [hstop] at hst
  | work =>
      by_cases hw : s.exited < s.pool.numWorkers
      · cases htasks : s.pool.tasks with
        | nil =>
            have hstep : poolStep s .work = s := by
              simp only [poolStep, if_pos hw, htasks]
            rw [hstep]
            exact ⟨h1, h2, h3, h4, h5, h6, h7⟩
        | cons t rest =>
            simp only [poolStep, if_pos hw, htasks]
            refine ⟨?_, ?_, ?_, ?_, by simpa using h5, by simpa using h6, ?_⟩
            · have := h1
              rw [htasks] at this
              simpa using Nat.le_of_succ_le this
            · rw [h2, htasks]
              simp
            · rw [h3]
              cases hc : t.callable <;> simp [List.filter_append, hc]
            · rw [h4]
              cases hc : t.callable <;> cases ht : t.throws <;>
                simp [List.filter_append, hc, ht]
            · intro _ hex _
              exact absurd hex (Nat.ne_of_lt hw)
      · simp only [poolStep, if_neg hw]
        exact ⟨h1, h2, h3, h4, h5, h6, h7⟩
  | exitWorker =>
      by_cases hg : s.exited < s.pool.numWorkers ∧ s.pool.stop = true ∧ s.pool.tasks = []
      · simp only [poolStep, if_pos hg]
        exact ⟨h1, h2, h3, h4, hg.1, fun _ => hg.2.1, fun _ _ _ => hg.2.2⟩
      · simp only [poolStep, if_neg hg]
        exact ⟨h1, h2, h3, h4, h5, h6, h7⟩
  | shutdown =>
      refine ⟨h1, h2, h3, h4, h5, fun _ => rfl, ?_⟩
      intro _ hex hnw
      exact h7 (h6 (hex ▸ hnw)) hex hnw

theorem poolRun_inv {s : PoolSys} (es : List PoolEvt) (hinv : PoolInv s) :
    PoolInv (poolRun s es) := by
  induction es generalizing s with
  | nil => exact hinv
  | cons e rest ih => exact ih (poolStep_inv e hinv)

theorem poolInit_inv (nw mq : Nat) : PoolInv (poolInit nw mq) := by
  refine ⟨?_, ?_, ?_, ?_, ?_, ?_, ?_⟩ <;> simp [poolInit, PoolInv]

theorem poolRun_constants (s : PoolSys) (es : List PoolEvt) :
    (poolRun s es).pool.numWorkers = s.pool.numWorkers ∧
    (poolRun s es).pool.maxQueueSize = s.pool.maxQueueSize := by
  induction es generalizing s with
  | nil => exact ⟨rfl, rfl⟩
  | cons e rest ih =>
      rcases ih (poolStep s e) with ⟨ha, hb⟩
      rcases poolStep_constants s e with ⟨hc, hd⟩
      exact ⟨ha.trans hc, hb.trans hd⟩

/-- C4: `ThreadPool::enqueue(task)` returns `false` immediately, without
modifying the queue, exactly when the queue already holds `max_queue_size`
tasks or the pool is shutting down; otherwise it appends the task to the back
of the queue and returns `true` (under the reachable-state invariant that the
queue never exceeds its capacity). -/
theorem C4_enqueue_backpressure (p : ThreadPool) (t : Task)
    (hcap : p.tasks.length ≤ p.maxQueueSize) :
    ((p.enqueue t).1 = false ↔ (p.tasks.length = p.maxQueueSize ∨ p.stop = true)) ∧
    ((p.enqueue t).1 = false → (p.enqueue t).2 = p) ∧
    ((p.enqueue t).1 = true → (p.enqueue t).2 = { p with tasks := p.tasks ++ [t] }) := by
  by_cases hfull : p.maxQueueSize ≤ p.tasks.length
  · have heq : p.tasks.length = p.maxQueueSize := Nat.le_antisymm hcap hfull
    rw [enqueue_of_full hfull]
    exact ⟨by simp [heq], fun _ => rfl, by simp⟩
  · have hlt : p.tasks.length < p.maxQueueSize := Nat.not_le.mp hfull
    cases hstop : p.stop with
    | true =>
        rw [enqueue_of_stopped hstop]
        exact ⟨by simp, fun _ => rfl, by simp⟩
    | false =>
        rw [enqueue_of_ok hlt hstop]
        refine ⟨?_, by simp, fun _ => by simp [hstop]⟩
        simp [Nat.ne_of_lt hlt]

/-- Witness for C4 at a concrete pool. -/
theorem C4_enqueue_backpressure_witness :
    let p : ThreadPool := ⟨4, 2, [], false⟩
    let t : Task := ⟨7, true, false⟩
    ((p.enqueue t).1 = false ↔ (p.tasks.length = p.maxQueueSize ∨ p.stop = true)) ∧
    ((p.enqueue t).1 = false → (p.enqueue t).2 = p) ∧
    ((p.enqueue t).1 = true → (p.enqueue t).2 = { p with tasks := p.tasks ++ [t] }) :=
  C4_enqueue_backpressure ⟨4, 2, [], false⟩ ⟨7, true, false⟩ (by decide)

/-- C6: in every execution of the pool the queue's size never exceeds
`max_queue_size`; on overflow `enqueue` fails without growing the queue; and
`queue_size` reports the queue's length. -/
theorem C6_queue_capacity_invariant (nw mq : Nat) (es : List PoolEvt) :
    (poolRun (poolInit nw mq) es).pool.queueSize ≤ mq ∧
    (∀ (p : ThreadPool) (t : Task), p.maxQueueSize ≤ p.tasks.length →
      p.enqueue t = (false, p)) ∧
    (∀ (p : ThreadPool), p.queueSize = p.tasks.length) := by
  refine ⟨?_, fun p t h => enqueue_of_full h, fun p => rfl⟩
  have hinv := poolRun_inv es (poolInit_inv nw mq)
  have hmax := (poolRun_constants (poolInit nw mq) es).2
  have h1 := hinv.1
  rw [hmax] at h1
  exact h1

/-- Witness for C6 at a concrete trace. -/
theorem C6_queue_capacity_invariant_witness :
    (poolRun (poolInit 1 2)
        [.enq ⟨0, true, false⟩, .enq ⟨1, true, false⟩, .enq ⟨2, true, false⟩]).pool.queueSize ≤ 2 ∧
    (∀ (p : ThreadPool) (t : Task), p.maxQueueSize ≤ p.tasks.length →
      p.enqueue t = (false, p)) ∧
    (∀ (p : ThreadPool), p.queueSize = p.tasks.length) :=
  C6_queue_capacity_invariant 1 2
    [.enq ⟨0, true, false⟩, .enq ⟨1, true, false⟩, .enq ⟨2, true, false⟩]

/-- C7: tasks are dequeued for execution in FIFO order relative to successful
`enqueue` calls: the sequence of dequeued tasks is always an initial segment
of the sequence of accepted tasks, the still-queued tasks making up the
rest. -/
theorem C7_fifo_order (nw mq : Nat) (es : List PoolEvt) :
    (poolRun (poolInit nw mq) es).accepted =
      (poolRun (poolInit nw mq) es).dequeued ++ (poolRun (poolInit nw mq) es).pool.tasks ∧
    (∀ i, i < (poolRun (poolInit nw mq) es).dequeued.length →
      (poolRun (poolInit nw mq) es).accepted[i]? =
        (poolRun (poolInit nw mq) es).dequeued[i]?) := by
  have h2 := (poolRun_inv es (poolInit_inv nw mq)).2.1
  refine ⟨h2, fun i hi => ?_⟩
  rw [h2, List.getElem?_append, if_pos hi]

/-- Witness for C7 at a concrete trace. -/
theorem C7_fifo_order_witness :
    (poolRun (poolInit 1 5) [.enq ⟨0, true, false⟩, .enq ⟨1, true, false⟩, .work]).accepted =
      (poolRun (poolInit 1 5)
          [.enq ⟨0, true, false⟩, .enq ⟨1, true, false⟩, .work]).dequeued ++
        (poolRun (poolInit 1 5)
            [.enq ⟨0, true, false⟩, .enq ⟨1, true, false⟩, .work]).pool.tasks ∧
    (∀ i, i < (poolRun (poolInit 1 5)
          [.enq ⟨0, true, false⟩, .enq ⟨1, true, false⟩, .work]).dequeued.length →
      (poolRun (poolInit 1 5)
          [.enq ⟨0, true, false⟩, .enq ⟨1, true, false⟩, .work]).accepted[i]? =
        (poolRun (poolInit 1 5)
            [.enq ⟨0, true, false⟩, .enq ⟨1, true, false⟩, .work]).dequeued[i]?) :=
  C7_fifo_order 1 5 [.enq ⟨0, true, false⟩, .enq ⟨1, true, false⟩, .work]

/-- C5 counterexample: the claim "after shutdown completes, every task that
was accepted by enqueue has been executed exactly once" fails on the code.
First trace: a pool with one worker accepts a default-constructed (empty)
`std::function`; the worker dequeues it but the `if (task)` guard skips
invocation, so after shutdown completes the accepted task was never executed.
Second trace: a pool constructed with zero workers accepts a genuine task;
the destructor joins no threads and returns immediately, leaving the accepted
task queued and never executed. -/
theorem C5_counterexample :
    (ShutdownComplete
        (poolRun (poolInit 1 10) [.enq ⟨0, false, false⟩, .work, .shutdown, .exitWorker]) ∧
      (poolRun (poolInit 1 10)
          [.enq ⟨0, false, false⟩, .work, .shutdown, .exitWorker]).accepted =
        [⟨0, false, false⟩] ∧
      (poolRun (poolInit 1 10)
          [.enq ⟨0, false, false⟩, .work, .shutdown, .exitWorker]).invoked = []) ∧
    (ShutdownComplete (poolRun (poolInit 0 10) [.enq ⟨1, true, false⟩, .shutdown]) ∧
      (poolRun (poolInit 0 10) [.enq ⟨1, true, false⟩, .shutdown]).accepted =
        [⟨1, true, false⟩] ∧
      (poolRun (poolInit 0 10) [.enq ⟨1, true, false⟩, .shutdown]).pool.tasks =
        [⟨1, true, false⟩] ∧
      (poolRun (poolInit 0 10) [.enq ⟨1, true, false⟩, .shutdown]).invoked = []) := by
  decide

/-- C5 (amended): after shutdown completes on a pool with at least one worker
thread, the queue has been fully drained, the accepted tasks were each
dequeued exactly once and in order, every accepted non-empty task was invoked
exactly once (empty `std::function` tasks are dequeued but skipped by the
worker's `if (task)` guard), and no task is accepted once shutdown has
begun. -/
theorem C5_shutdown_drains (nw mq : Nat) (es : List PoolEvt)
    (hc : ShutdownComplete (poolRun (poolInit nw mq) es)) (hnw : 0 < nw) :
    (poolRun (poolInit nw mq) es).pool.tasks = [] ∧
    (poolRun (poolInit nw mq) es).dequeued = (poolRun (poolInit nw mq) es).accepted ∧
    (poolRun (poolInit nw mq) es).invoked =
      ((poolRun (poolInit nw mq) es).accepted.filter (fun t => t.callable)).map Task.id ∧
    (∀ (p : ThreadPool) (t : Task), p.stop = true → (p.enqueue t).1 = false) := by
  obtain ⟨h1, h2, h3, h4, h5, h6, h7⟩ := poolRun_inv es (poolInit_inv nw mq)
  have hnwrun := (poolRun_constants (poolInit nw mq) es).1
  have hnw' : 0 < (poolRun (poolInit nw mq) es).pool.numWorkers := by
    rw [hnwrun]; exact hnw
  have htasks : (poolRun (poolInit nw mq) es).pool.tasks = [] := h7 hc.1 hc.2 hnw'
  have hacc : (poolRun (poolInit nw mq) es).dequeued = (poolRun (poolInit nw mq) es).accepted := by
    rw [h2, htasks, List.append_nil]
  refine ⟨htasks, hacc, ?_, fun p t h => by rw [enqueue_of_stopped h]⟩
  rw [h3, hacc]

/-- Witness for C5 (amended) at a concrete trace. -/
theorem C5_shutdown_drains_witness :
    ShutdownComplete
      (poolRun (poolInit 1 10) [.enq ⟨0, true, false⟩, .work, .shutdown, .exitWorker]) ∧
    (0 : Nat) < 1 ∧
    ((poolRun (poolInit 1 10)
        [.enq ⟨0, true, false⟩, .work, .shutdown, .exitWorker]).pool.tasks = [] ∧
      (poolRun (poolInit 1 10)
          [.enq ⟨0, true, false⟩, .work, .shutdown, .exitWorker]).dequeued =
        (poolRun (poolInit 1 10)
            [.enq ⟨0, true, false⟩, .work, .shutdown, .exitWorker]).accepted ∧
      (poolRun (poolInit 1 10)
          [.enq ⟨0, true, false⟩, .work, .shutdown, .exitWorker]).invoked =
        ((poolRun (poolInit 1 10)
              [.enq ⟨0, true, false⟩, .work, .shutdown, .exitWorker]).accepted.filter
            (fun t => t.callable)).map Task.id ∧
      (∀ (p : ThreadPool) (t : Task), p.stop = true → (p.enqueue t).1 = false)) :=
  ⟨by decide, by decide,
    C5_shutdown_drains 1 10 [.enq ⟨0, true, false⟩, .work, .shutdown, .exitWorker]
      (by decide) (by decide)⟩

/-- C8: an exception raised inside a submitted task is caught at the worker
boundary and logged, and the worker survives and moves on: on every trace, the
logged ids are exactly the dequeued non-empty throwing tasks and every
dequeued non-empty task is invoked regardless of earlier failures; locally, a
worker-loop iteration on a throwing task leaves the worker count untouched,
advances the queue to the remaining tasks, and merely appends a log entry. -/
theorem C8_task_exception_contained (nw mq : Nat) (es : List PoolEvt) :
    (poolRun (poolInit nw mq) es).logged =
      (((poolRun (poolInit nw mq) es).dequeued.filter
          (fun t => t.callable && t.throws)).map Task.id) ∧
    (poolRun (poolInit nw mq) es).invoked =
      (((poolRun (poolInit nw mq) es).dequeued.filter (fun t => t.callable)).map Task.id) ∧
    (∀ (s : PoolSys) (t : Task) (rest : List Task),
      s.pool.tasks = t :: rest → s.exited < s.pool.numWorkers →
      (poolStep s .work).exited = s.exited ∧
      (poolStep s .work).pool.tasks = rest ∧
      (t.callable = true → t.throws = true →
        (poolStep s .work).logged = s.logged ++ [t.id] ∧
        (poolStep s .work).invoked = s.invoked ++ [t.id])) := by
  obtain ⟨_, _, h3, h4, _, _, _⟩ := poolRun_inv es (poolInit_inv nw mq)
  refine ⟨h4, h3, fun s t rest htasks hw => ?_⟩
  simp only [poolStep, if_pos hw, htasks]
  exact ⟨trivial, trivial, fun hc ht => by simp [hc, ht]⟩

/-- Witness for C8's universally quantified local part at a concrete state. -/
theorem C8_task_exception_contained_witness :
    (poolRun (poolInit 1 4) [.enq ⟨3, true, true⟩, .work]).logged =
      (((poolRun (poolInit 1 4) [.enq ⟨3, true, true⟩, .work]).dequeued.filter
          (fun t => t.callable && t.throws)).map Task.id) ∧
    (poolRun (poolInit 1 4) [.enq ⟨3, true, true⟩, .work]).invoked =
      (((poolRun (poolInit 1 4) [.enq ⟨3, true, true⟩, .work]).dequeued.filter
          (fun t => t.callable)).map Task.id) ∧
    (∀ (s : PoolSys) (t : Task) (rest : List Task),
      s.pool.tasks = t :: rest → s.exited < s.pool.numWorkers →
      (poolStep s .work).exited = s.exited ∧
      (poolStep s .work).pool.tasks = rest ∧
      (t.callable = true → t.throws = true →
        (poolStep s .work).logged = s.logged ++ [t.id] ∧
        (poolStep s .work).invoked = s.invoked ++ [t.id])) :=
  C8_task_exception_contained 1 4 [.enq ⟨3, true, true⟩, .work]

theorem poolStep_zero_capacity {s : PoolSys} (e : PoolEvt)
    (h0 : s.pool.maxQueueSize = 0) (ha : s.accepted = []) (hd : s.dequeued = [])
    (ht : s.pool.tasks = []) :
    (poolStep s e).pool.maxQueueSize = 0 ∧ (poolStep s e).accepted = [] ∧
    (poolStep s e).dequeued = [] ∧ (poolStep s e).pool.tasks = [] := by
  cases e with
  | enq t =>
      have hfull : s.pool.maxQueueSize ≤ s.pool.tasks.length := by
        rw [h0]; exact Nat.zero_le _
      simp [poolStep, enqueue_of_full hfull, h0, ha, hd, ht]
  | work =>
      have hstep : poolStep s .work = s := by
        simp only [poolStep, ht, ite_self]
      rw [hstep]
      exact ⟨h0, ha, hd, ht⟩
  | exitWorker =>
      simp only [poolStep]
      split <;> simp [h0, ha, hd, ht]
  | shutdown => simp [poolStep, h0, ha, hd, ht]

theorem poolRun_zero_capacity {s : PoolSys} (es : List PoolEvt)
    (h0 : s.pool.maxQueueSize = 0) (ha : s.accepted = []) (hd : s.dequeued = [])
    (ht : s.pool.tasks = []) :
    (poolRun s es).pool.maxQueueSize = 0 ∧ (poolRun s es).accepted = [] ∧
    (poolRun s es).dequeued = [] ∧ (poolRun s es).pool.tasks = [] := by
  induction es generalizing s with
  | nil => exact ⟨h0, ha, hd, ht⟩
  | cons e rest ih =>
      obtain ⟨a, b, c, d⟩ := poolStep_zero_capacity e h0 ha hd ht
      exact ih a b c d

/-- C9: for a pool constructed with `max_queue_size = 0`, every `enqueue`
returns `false` (the capacity check `tasks_.size() >= max_queue_size_` holds
on the empty queue), so on every trace no task is ever accepted or
executed. -/
theorem C9_zero_capacity_rejects_all (nw : Nat) (es : List PoolEvt) :
    (poolRun (poolInit nw 0) es).accepted = [] ∧
    (poolRun (poolInit nw 0) es).invoked = [] ∧
    (∀ (p : ThreadPool) (t : Task), p.maxQueueSize = 0 → p.enqueue t = (false, p)) := by
  obtain ⟨h0, ha, hd, ht⟩ := poolRun_zero_capacity (s := poolInit nw 0) es rfl rfl rfl rfl
  have h3 := (poolRun_inv es (poolInit_inv nw 0)).2.2.1
  refine ⟨ha, ?_, fun p t hp => enqueue_of_full (by rw [hp]; exact Nat.zero_le _)⟩
  rw [h3, hd]
  rfl

/-- Witness for C9 at a concrete trace. -/
theorem C9_zero_capacity_rejects_all_witness :
    (poolRun (poolInit 2 0) [.enq ⟨0, true, false⟩, .work]).accepted = [] ∧
    (poolRun (poolInit 2 0) [.enq ⟨0, true, false⟩, .work]).invoked = [] ∧
    (∀ (p : ThreadPool) (t : Task), p.maxQueueSize = 0 → p.enqueue t = (false, p)) :=
  C9_zero_capacity_rejects_all 2 [.enq ⟨0, true, false⟩, .work]

/-- C10: a default-constructed (empty) `std::function` passed to `enqueue` is
accepted and occupies a queue slot, but the dequeuing worker's `if (task)`
guard skips invocation, so the task is dequeued yet never executed — and on
every trace only non-empty dequeued tasks are ever invoked, so the
`std::bad_function_call` branch is unreachable. -/
theorem C10_empty_function_accepted_never_invoked (p : ThreadPool) (t : Task)
    (hcall : t.callable = false) (hlen : p.tasks.length < p.maxQueueSize)
    (hstop : p.stop = false) :
    (p.enqueue t).1 = true ∧
    (p.enqueue t).2.tasks = p.tasks ++ [t] ∧
    (p.enqueue t).2.queueSize = p.queueSize + 1 ∧
    (∀ (s : PoolSys) (rest : List Task), s.pool.tasks = t :: rest →
      s.exited < s.pool.numWorkers →
      (poolStep s .work).invoked = s.invoked ∧
      (poolStep s .work).dequeued = s.dequeued ++ [t] ∧
      (poolStep s .work).pool.tasks = rest) ∧
    (∀ (nw mq : Nat) (es : List PoolEvt),
      (poolRun (poolInit nw mq) es).invoked =
        (((poolRun (poolInit nw mq) es).dequeued.filter (fun u => u.callable)).map Task.id)) := by
  rw [enqueue_of_ok hlen hstop]
  refine ⟨rfl, rfl, by simp [ThreadPool.queueSize], fun s rest htasks hw => ?_,
    fun nw mq es => (poolRun_inv es (poolInit_inv nw mq)).2.2.1⟩
  simp only [poolStep, if_pos hw, htasks, hcall]
  refine ⟨by simp, by simp, by simp⟩

/-- Witness for C10 at a concrete pool and empty task. -/
theorem C10_empty_function_accepted_never_invoked_witness :
    let p : ThreadPool := ⟨1, 3, [], false⟩
    let t : Task := ⟨9, false, false⟩
    (p.enqueue t).1 = true ∧
    (p.enqueue t).2.tasks = p.tasks ++ [t] ∧
    (p.enqueue t).2.queueSize = p.queueSize + 1 ∧
    (∀ (s : PoolSys) (rest : List Task), s.pool.tasks = t :: rest →
      s.exited < s.pool.numWorkers →
      (poolStep s .work).invoked = s.invoked ∧
      (poolStep s .work).dequeued = s.dequeued ++ [t] ∧
      (poolStep s .work).pool.tasks = rest) ∧
    (∀ (nw mq : Nat) (es : List PoolEvt),
      (poolRun (poolInit nw mq) es).invoked =
        (((poolRun (poolInit nw mq) es).dequeued.filter (fun u => u.callable)).map Task.id)) :=
  C10_empty_function_accepted_never_invoked ⟨1, 3, [], false⟩ ⟨9, false, false⟩
    (by decide) (by decide) (by decide)

/-! ## Lemmas: telemetry ring buffer -/

theorem mod_ne_of_lt_of_sub_lt {a b n : Nat} (hab : a < b) (hs : b - a < n) :
    a % n ≠ b % n := by
  intro h
  have hdvd : n ∣ b - a := (Nat.modEq_iff_dvd' (Nat.le_of_lt hab)).mp h
  have hpos : 0 < b - a := Nat.sub_pos_of_lt hab
  have := Nat.le_of_dvd hpos hdvd
  omega

theorem recordAll_append_one (s : ClientMetrics) (es : List MetricEvent) (e : MetricEvent) :
    s.recordAll (es ++ [e]) = (s.recordAll es).record e := by
  simp [ClientMetrics.recordAll, List.foldl_append]

/-- Cursor and slot contents after recording a batch into a drained buffer:
the write cursor advances by the batch length, the read cursor trails it by at
most the capacity (advancing only on overwrite), and every unread slot holds
the batch event whose sequence number is that cursor position. -/
theorem recordAll_cursors_buffer (k : Nat) (es : List MetricEvent) (s : ClientMetrics)
    (hr : s.read_index = k) (hw : s.write_index = k) :
    (s.recordAll es).write_index = k + es.length ∧
    (s.recordAll es).read_index = k + (es.length - BUFFER_SIZE) ∧
    ∀ j : Nat, (s.recordAll es).read_index ≤ j → j < (s.recordAll es).write_index →
      (s.recordAll es).ring_buffer ⟨j % BUFFER_SIZE, Nat.mod_lt _ buffer_size_pos⟩ =
        es.getD (j - k) default := by
  induction es using List.reverseRecOn with
  | nil =>
      refine ⟨by simpa [ClientMetrics.recordAll] using hw,
        by simp [ClientMetrics.recordAll, hr], ?_⟩
      intro j hj1 hj2
      simp only [ClientMetrics.recordAll, List.foldl_nil] at hj1 hj2
      rw [hr] at hj1
      rw [hw] at hj2
      omega
  | append_singleton es e ih =>
      obtain ⟨ihw, ihr, ihb⟩ := ih
      rw [recordAll_append_one]
      set u := s.recordAll es with hu
      have hwlen : (u.record e).write_index = k + (es ++ [e]).length := by
        simp [ClientMetrics.record, ihw, List.length_append]
        omega
      have hcond : (BUFFER_SIZE ≤ u.write_index - u.read_index) ↔ BUFFER_SIZE ≤ es.length := by
        rw [ihw, ihr]
        omega
      have hrlen : (u.record e).read_index = k + ((es ++ [e]).length - BUFFER_SIZE) := by
        simp only [ClientMetrics.record, List.length_append, List.length_cons,
          List.length_nil]
        by_cases hC : BUFFER_SIZE ≤ es.length
        · rw [if_pos (hcond.mpr hC), ihr]
          omega
        · rw [if_neg (fun h => hC (hcond.mp h)), ihr]
          omega
      refine ⟨hwlen, hrlen, ?_⟩
      intro j hj1 hj2
      rw [hwlen] at hj2
      rw [hrlen] at hj1
      simp only [List.length_append, List.length_cons, List.length_nil] at hj1 hj2
      by_cases hj : j = k + es.length
      · subst hj
        have hidx : (u.record e).ring_buffer
            ⟨(k + es.length) % BUFFER_SIZE, Nat.mod_lt _ buffer_size_pos⟩ = e := by
          simp only [ClientMetrics.record, ihw]
          exact Function.update_same _ _ _
        rw [hidx]
        have hsub : k + es.length - k = es.length := by omega
        rw [hsub, List.getD_append_right _ _ _ _ (le_refl _)]
        simp
      · have hjlt : j < k + es.length := by omega
        have hjge : k + (es.length - BUFFER_SIZE) ≤ j := by omega
        have hsub : (k + es.length) - j < BUFFER_SIZE := by omega
        have hne : (⟨j % BUFFER_SIZE, Nat.mod_lt _ buffer_size_pos⟩ : Fin BUFFER_SIZE) ≠
            ⟨(k + es.length) % BUFFER_SIZE, Nat.mod_lt _ buffer_size_pos⟩ := by
          intro hcontra
          exact mod_ne_of_lt_of_sub_lt hjlt hsub (congrArg Fin.val hcontra)
        have hbuf : (u.record e).ring_buffer
            ⟨j % BUFFER_SIZE, Nat.mod_lt _ buffer_size_pos⟩ =
            u.ring_buffer ⟨j % BUFFER_SIZE, Nat.mod_lt _ buffer_size_pos⟩ := by
          simp only [ClientMetrics.record, ihw]
          exact Function.update_noteq hne _ _
        rw [hbuf, ihb j (by rw [ihr]; omega) (by rw [ihw]; omega)]
        rw [List.getD_append _ _ _ _ (by omega)]

/-- C2: events recorded into a client's 1000-slot ring buffer are harvested
in recording order: draining after a batch of `N` recorded events yields
exactly the batch when `N ≤ C` (so, the read cursor being reset to the write
cursor, exactly the recorded events are harvested across one or more
flushes), and exactly the most recent `C` events (the oldest silently
dropped) when `N > C`; `record` and the flush drain both preserve
`write_cursor - read_cursor ≤ C`. -/
theorem C2_ring_buffer_conservation (s : ClientMetrics) (es : List MetricEvent)
    (hflushed : s.read_index = s.write_index) :
    (s.recordAll es).drain.1 = es.drop (es.length - BUFFER_SIZE) ∧
    (s.recordAll es).drain.2.read_index = (s.recordAll es).drain.2.write_index ∧
    (∀ (u : ClientMetrics) (e : MetricEvent), u.read_index ≤ u.write_index →
      u.write_index - u.read_index ≤ BUFFER_SIZE →
      (u.record e).read_index ≤ (u.record e).write_index ∧
      (u.record e).write_index - (u.record e).read_index ≤ BUFFER_SIZE) ∧
    (∀ u : ClientMetrics, u.drain.2.write_index - u.drain.2.read_index ≤ BUFFER_SIZE) := by
  obtain ⟨hw, hr, hb⟩ := recordAll_cursors_buffer s.write_index es s hflushed rfl
  refine ⟨?_, by simp [ClientMetrics.drain], ?_, fun u => by simp [ClientMetrics.drain]⟩
  · apply List.ext_getElem
    · simp only [ClientMetrics.drain, List.length_map, List.length_range, List.length_drop]
      rw [hw, hr]
      omega
    · intro i h1 h2
      simp only [ClientMetrics.drain, List.length_map, List.length_range] at h1
      simp only [ClientMetrics.drain, List.getElem_map, List.getElem_range]
      rw [hb ((s.recordAll es).read_index + i) (Nat.le_add_right _ _) (by omega)]
      rw [List.getElem_drop]
      have hidx : (s.recordAll es).read_index + i - s.write_index =
          es.length - BUFFER_SIZE + i := by
        rw [hr]; omega
      rw [hidx, List.getD_eq_getElem]
  · intro u e hru hwu
    simp only [ClientMetrics.record]
    by_cases hc : BUFFER_SIZE ≤ u.write_index - u.read_index
    · rw [if_pos hc]
      constructor <;> omega
    · rw [if_neg hc]
      constructor <;> omega

/-- Witness for C2 at a concrete drained buffer and a concrete batch. -/
theorem C2_ring_buffer_conservation_witness :
    let s : ClientMetrics := ⟨fun _ => default, 5, 5⟩
    let es : List MetricEvent := [⟨1, true⟩, ⟨2, false⟩, ⟨3, true⟩]
    s.read_index = s.write_index ∧
    ((s.recordAll es).drain.1 = es.drop (es.length - BUFFER_SIZE) ∧
      (s.recordAll es).drain.2.read_index = (s.recordAll es).drain.2.write_index ∧
      (∀ (u : ClientMetrics) (e : MetricEvent), u.read_index ≤ u.write_index →
        u.write_index - u.read_index ≤ BUFFER_SIZE →
        (u.record e).read_index ≤ (u.record e).write_index ∧
        (u.record e).write_index - (u.record e).read_index ≤ BUFFER_SIZE) ∧
      (∀ u : ClientMetrics, u.drain.2.write_index - u.drain.2.read_index ≤ BUFFER_SIZE)) :=
  ⟨rfl, C2_ring_buffer_conservation ⟨fun _ => default, 5, 5⟩
    [⟨1, true⟩, ⟨2, false⟩, ⟨3, true⟩] rfl⟩

/-! ## Lemmas: sliding-window rate limiter -/

theorem oneSecond_nonneg : (0 : Int) ≤ oneSecond := by norm_num [oneSecond]

theorem inWindow_iff (t x : Int) : inWindow t x = true ↔ (t - oneSecond ≤ x ∧ x ≤ t) := by
  simp [inWindow]

theorem allowedTimes_cons (c0 c : String) (now : Int) (d : Bool)
    (log : List (String × Int × Bool)) :
    allowedTimes ((c0, now, d) :: log) c =
      (if c0 = c ∧ d = true then [now] else []) ++ allowedTimes log c := by
  by_cases h : c0 = c <;> cases d <;> simp [allowedTimes, h]

theorem windowCount_append (l1 l2 : List Int) (t : Int) :
    windowCount (l1 ++ l2) t = windowCount l1 t + windowCount l2 t := by
  simp [windowCount, List.filter_append]

theorem allowRequest_eq (rl : RateLimiter) (c0 : String) (now : Int) :
    rl.allowRequest c0 now =
      if (pruneWindow now (rl.clientRequests c0)).length < rl.maxRequests then
        (true,
          { rl with
            clientRequests := Function.update rl.clientRequests c0
              (pruneWindow now (rl.clientRequests c0) ++ [now]) })
      else
        (false,
          { rl with
            clientRequests := Function.update rl.clientRequests c0
              (pruneWindow now (rl.clientRequests c0)) }) := by
  rfl

theorem RLInv_step {rl : RateLimiter} {A : String → List Int} {T : Int}
    (h : RLInv rl A T) (c0 : String) (now : Int) (hT : T ≤ now) :
    RLInv (rl.allowRequest c0 now).2
      (if (rl.allowRequest c0 now).1 = true then
        Function.update A c0 (A c0 ++ [now]) else A)
      now := by
  obtain ⟨h1, h2, h3⟩ := h
  obtain ⟨θ, hθ, hwin⟩ := h2 c0
  have hθnow : θ + oneSecond ≤ now := le_trans hθ hT
  have hprune : pruneWindow now (rl.clientRequests c0) =
      (A c0).filter (fun ts => decide (now - oneSecond ≤ ts)) := by
    rw [hwin]
    unfold pruneWindow
    rw [List.filter_filter]
    refine List.filter_congr ?_
    intro ts _
    by_cases hts : now - oneSecond ≤ ts
    · have hθts : θ ≤ ts := by omega
      simp [hts, hθts]
    · simp [hts]
  have hkeep : now - oneSecond ≤ now := by
    have := oneSecond_nonneg
    omega
  by_cases hd : (pruneWindow now (rl.clientRequests c0)).length < rl.maxRequests
  · have hdec : (rl.allowRequest c0 now).1 = true := by
      rw [allowRequest_eq, if_pos hd]
    have hstate : (rl.allowRequest c0 now).2 =
        { rl with
          clientRequests := Function.update rl.clientRequests c0
            (pruneWindow now (rl.clientRequests c0) ++ [now]) } := by
      rw [allowRequest_eq, if_pos hd]
    rw [if_pos hdec, hstate]
    refine ⟨?_, ?_, ?_⟩
    · intro c ts hts
      by_cases hc : c = c0
      · subst hc
        rw [Function.update_same] at hts
        rcases List.mem_append.mp hts with hold | hnew
        · exact le_trans (h1 c ts hold) hT
        · rw [List.mem_singleton.mp hnew]
      · rw [Function.update_noteq hc] at hts
        exact le_trans (h1 c ts hts) hT
    · intro c
      by_cases hc : c = c0
      · subst hc
        refine ⟨now - oneSecond, by rw [Int.sub_add_cancel], ?_⟩
        show Function.update rl.clientRequests c
            (pruneWindow now (rl.clientRequests c) ++ [now]) c = _
        rw [Function.update_same, Function.update_same, hprune, List.filter_append]
        have h0 : (0 : Int) ≤ oneSecond := oneSecond_nonneg
        simp [List.filter_singleton, hkeep, h0]
      · obtain ⟨θc, hθc, hwc⟩ := h2 c
        refine ⟨θc, le_trans hθc hT, ?_⟩
        show Function.update rl.clientRequests c0
            (pruneWindow now (rl.clientRequests c0) ++ [now]) c = _
        rw [Function.update_noteq hc, Function.update_noteq hc]
        exact hwc
    · intro c t
      show windowCount (Function.update A c0 (A c0 ++ [now]) c) t ≤ rl.maxRequests
      by_cases hc : c = c0
      · subst hc
        rw [Function.update_same, windowCount_append]
        by_cases hin : inWindow t now = true
        · have hlt : windowCount (A c) t < rl.maxRequests := by
            have hsub : List.Sublist ((A c).filter (inWindow t))
                ((A c).filter (fun ts => decide (now - oneSecond ≤ ts))) := by
              apply List.monotone_filter_right
              intro a ha
              obtain ⟨ha1, ha2⟩ := (inWindow_iff t a).mp ha
              obtain ⟨hn1, hn2⟩ := (inWindow_iff t now).mp hin
              rw [decide_eq_true_eq]
              omega
            have hle := hsub.length_le
            rw [hprune] at hd
            exact lt_of_le_of_lt hle hd
          have hone : windowCount [now] t = 1 := by
            simp [windowCount, List.filter_singleton, hin]
          omega
        · have hzero : windowCount [now] t = 0 := by
            simp [windowCount, List.filter_singleton, hin]
          rw [hzero]
          have := h3 c t
          omega
      · rw [Function.update_noteq hc]
        exact h3 c t
  · have hdec : (rl.allowRequest c0 now).1 = false := by
      rw [allowRequest_eq, if_neg hd]
    have hstate : (rl.allowRequest c0 now).2 =
        { rl with
          clientRequests := Function.update rl.clientRequests c0
            (pruneWindow now (rl.clientRequests c0)) } := by
      rw [allowRequest_eq, if_neg hd]
    rw [if_neg (by simp [hdec]), hstate]
    refine ⟨?_, ?_, ?_⟩
    · intro c ts hts
      exact le_trans (h1 c ts hts) hT
    · intro c
      by_cases hc : c = c0
      · subst hc
        refine ⟨now - oneSecond, by rw [Int.sub_add_cancel], ?_⟩
        show Function.update rl.clientRequests c
            (pruneWindow now (rl.clientRequests c)) c = _
        rw [Function.update_same, hprune]
      · obtain ⟨θc, hθc, hwc⟩ := h2 c
        refine ⟨θc, le_trans hθc hT, ?_⟩
        show Function.update rl.clientRequests c0
            (pruneWindow now (rl.clientRequests c0)) c = _
        rw [Function.update_noteq hc]
        exact hwc
    · intro c t
      exact h3 c t

theorem RLInv_run (calls : List (String × Int)) :
    ∀ (rl : RateLimiter) (A : String → List Int) (T : Int), RLInv rl A T →
    List.Chain' (· ≤ ·) (T :: calls.map Prod.snd) →
    ∀ (c : String) (t : Int),
      windowCount (A c ++ allowedTimes (rl.runCalls calls).2 c) t ≤ rl.maxRequests := by
  induction calls with
  | nil =>
      intro rl A T h _ c t
      simp only [RateLimiter.runCalls, allowedTimes, List.filter_nil, List.map_nil,
        List.append_nil]
      exact h.2.2 c t
  | cons p rest ih =>
      obtain ⟨c0, now⟩ := p
      intro rl A T h hchain c t
      rw [List.map_cons, List.chain'_cons] at hchain
      obtain ⟨hT, hchain'⟩ := hchain
      have hstep := RLInv_step h c0 now hT
      have hrun : (rl.runCalls ((c0, now) :: rest)).2 =
          (c0, now, (rl.allowRequest c0 now).1) ::
            ((rl.allowRequest c0 now).2.runCalls rest).2 := rfl
      rw [hrun, allowedTimes_cons]
      have hmax : (rl.allowRequest c0 now).2.maxRequests = rl.maxRequests := by
        rw [allowRequest_eq]
        split <;> rfl
      have hkey := ih (rl.allowRequest c0 now).2
        (if (rl.allowRequest c0 now).1 = true then
          Function.update A c0 (A c0 ++ [now]) else A)
        now hstep hchain' c t
      rw [hmax] at hkey
      by_cases hd : (rl.allowRequest c0 now).1 = true
      · by_cases hc : c0 = c
        · subst hc
          rw [if_pos ⟨rfl, hd⟩]
          rw [if_pos hd, Function.update_same] at hkey
          rw [← List.append_assoc]
          exact hkey
        · rw [if_neg (fun hx => hc hx.1)]
          rw [if_pos hd, Function.update_noteq (fun hx => hc hx.symm)] at hkey
          exact hkey
      · rw [if_neg (fun hx => hd hx.2)]
        rw [if_neg hd] at hkey
        exact hkey

/-- C1: running any monotone-clock sequence of `allow_request` calls from a
fresh limiter, every client in every 1-second sliding interval has at most
`max_requests_per_second` calls that returned `true` with their decision
timestamps in that interval; and each call discards the timestamps older than
one second before now from the client's window, then appends now and returns
`true` exactly when the remaining count is below the limit. -/
theorem C1_sliding_window_bound (maxR : Nat) (calls : List (String × Int))
    (hmono : List.Chain' (· ≤ ·) (calls.map Prod.snd)) (c : String) (t : Int) :
    windowCount (allowedTimes ((RateLimiter.init maxR).runCalls calls).2 c) t ≤ maxR ∧
    (∀ (rl : RateLimiter) (cl : String) (now : Int),
      (rl.allowRequest cl now).1 =
        decide ((pruneWindow now (rl.clientRequests cl)).length < rl.maxRequests) ∧
      ((rl.allowRequest cl now).1 = true →
        (rl.allowRequest cl now).2.clientRequests cl =
          pruneWindow now (rl.clientRequests cl) ++ [now])) := by
  constructor
  · set T0 : Int := (calls.map Prod.snd).headD 0 with hT0
    have hinit : RLInv (RateLimiter.init maxR) (fun _ => []) T0 := by
      refine ⟨?_, ?_, ?_⟩
      · intro c' ts hts
        simp at hts
      · intro c'
        exact ⟨T0 - oneSecond, by rw [Int.sub_add_cancel], rfl⟩
      · intro c' t'
        simp [windowCount]
    have hchain : List.Chain' (· ≤ ·) (T0 :: calls.map Prod.snd) := by
      cases hcase : calls.map Prod.snd with
      | nil => exact List.chain'_singleton T0
      | cons a l =>
          rw [hT0, hcase]
          simp only [List.headD_cons]
          rw [List.chain'_cons]
          refine ⟨le_refl a, ?_⟩
          rw [hcase] at hmono
          exact hmono
    have := RLInv_run calls (RateLimiter.init maxR) (fun _ => []) T0 hinit hchain c t
    simpa [RateLimiter.init] using this
  · intro rl cl now
    rw [allowRequest_eq]
    by_cases hd : (pruneWindow now (rl.clientRequests cl)).length < rl.maxRequests
    · rw [if_pos hd]
      exact ⟨by simp [hd], fun _ => by simp⟩
    · rw [if_neg hd]
      exact ⟨by simp [hd], fun hx => absurd hx (by simp)⟩

/-- Witness for C1 at a concrete monotone call sequence. -/
theorem C1_sliding_window_bound_witness :
    List.Chain' (· ≤ ·) (([(clientA, (0 : Int)), (clientA, 1)]).map Prod.snd) ∧
    (windowCount
        (allowedTimes ((RateLimiter.init 5).runCalls
            [(clientA, 0), (clientA, 1)]).2 clientA) 1 ≤ 5 ∧
      (∀ (rl : RateLimiter) (cl : String) (now : Int),
        (rl.allowRequest cl now).1 =
          decide ((pruneWindow now (rl.clientRequests cl)).length < rl.maxRequests) ∧
        ((rl.allowRequest cl now).1 = true →
          (rl.allowRequest cl now).2.clientRequests cl =
            pruneWindow now (rl.clientRequests cl) ++ [now]))) :=
  ⟨by norm_num [List.chain'_cons],
    C1_sliding_window_bound 5 [(clientA, 0), (clientA, 1)]
      (by norm_num [List.chain'_cons]) clientA 1⟩

end MetricsStream
